import Mathlib

/-!
Verification of the BLE pairing / chunked-transfer code
(`src/utils/bleManager.ts`, `src/utils/bleUtils.ts`) against its
natural-language specification.  JS strings are modelled as `List Char`
(one element per UTF-16 code unit for the payloads involved); each
definition is a direct translation of the named source function.
-/

namespace BleTransfer

/-- JS strings modelled as lists of characters. -/
abbrev Str := List Char

/-- Convert a Lean string literal to the `Str` model. -/
def s2l (s : String) : Str := s.data

/-- One character of the regex class `[A-Z0-9]`. -/
def isUpperAlnum (c : Char) : Bool :=
  ('A' ≤ c && c ≤ 'Z') || ('0' ≤ c && c ≤ '9')

/-- `/^[A-Z0-9]+$/.test(data)`: nonempty and every char in the class. -/
def regexUpperAlnumPlus (s : Str) : Bool :=
  !s.isEmpty && s.all isUpperAlnum

/-- Result type of `getDataType` (both source copies). -/
inductive DataType
  | connectionCode
  | serialNumber
  | jwtToken
  | unknown
deriving DecidableEq, Repr

/-- Number of `.` characters, i.e. `(data.match(/\./g) || []).length`. -/
def countDots (s : Str) : Nat := s.countP (· = '.')

/-- `getDataType` from `src/utils/bleManager.ts` (lines 58-64):
code iff length 6 matching `^[A-Z0-9]+$`; serial iff prefixed by
`TAB-`/`IOT-`/`TABLET-`; jwt iff it starts with `eyJ` and has at least
two dots; otherwise unknown. -/
def getDataType (data : Str) : DataType :=
  if data.length = 6 && regexUpperAlnumPlus data then .connectionCode
  else if (s2l "TAB-").isPrefixOf data || (s2l "IOT-").isPrefixOf data
      || (s2l "TABLET-").isPrefixOf data then .serialNumber
  else if (s2l "eyJ").isPrefixOf data && decide (countDots data ≥ 2) then .jwtToken
  else .unknown

/-- `getDataType` from `src/utils/bleUtils.ts` (lines 68-79): same first
two branches, but the jwt branch tests only `startsWith eyJ`. -/
def getDataTypeUtils (data : Str) : DataType :=
  if data.length = 6 && regexUpperAlnumPlus data then .connectionCode
  else if (s2l "TAB-").isPrefixOf data || (s2l "IOT-").isPrefixOf data
      || (s2l "TABLET-").isPrefixOf data then .serialNumber
  else if (s2l "eyJ").isPrefixOf data then .jwtToken
  else .unknown

/-- `validateConnectionCode` (`bleManager.ts` lines 66-68, identical in
`bleUtils.ts` lines 82-84). -/
def validateConnectionCode (code : Str) : Bool :=
  code.length = 6 && regexUpperAlnumPlus code

/-! ## JS substring search: `includes`, `indexOf`, `substring` -/

/-- Smallest index at which `pat` occurs as a contiguous substring of `s`
(`none` when it does not occur).  Implements the search underlying JS
`String.prototype.indexOf` / `includes`. -/
def firstSubAt (pat : Str) : Str → Option Nat
  | [] => if pat.isPrefixOf [] then some 0 else none
  | c :: t => if pat.isPrefixOf (c :: t) then some 0
      else (firstSubAt pat t).map (· + 1)

/-- JS `s.includes(pat)`. -/
def includesJS (s pat : Str) : Bool := (firstSubAt pat s).isSome

/-- JS `s.indexOf(pat)`: the first occurrence, or `-1`. -/
def indexOfJS (s pat : Str) : Int :=
  match firstSubAt pat s with
  | some i => (i : Int)
  | none => -1

/-- JS `s.substring(a, b)`: clamps both arguments into `[0, s.length]`,
swaps them when out of order, and returns the characters in between. -/
def substringJS (s : Str) (a b : Int) : Str :=
  let len : Int := s.length
  let a' : Nat := (max 0 (min a len)).toNat
  let b' : Nat := (max 0 (min b len)).toNat
  (s.drop (min a' b')).take (max a' b' - min a' b')

theorem firstSubAt_of_isPre {pat s : Str} (h : pat.isPrefixOf s = true) :
    firstSubAt pat s = some 0 := by
  cases s <;> simp [firstSubAt, h]

theorem firstSubAt_eq_none_iff {pat s : Str} :
    firstSubAt pat s = none ↔ ∀ i, pat.isPrefixOf (s.drop i) = false := by
  induction s with
  | nil =>
    constructor
    · intro h i
      simp only [List.drop_nil]
      by_contra hp
      rw [Bool.not_eq_false] at hp
      simp [firstSubAt, hp] at h
    · intro h
      have h0 := h 0
      simp only [List.drop_nil] at h0
      simp [firstSubAt, h0]
  | cons c t ih =>
    constructor
    · intro h i
      simp only [firstSubAt] at h
      cases hp : pat.isPrefixOf (c :: t) with
      | true => simp [hp] at h
      | false =>
        simp only [hp, if_neg Bool.false_ne_true, Option.map_eq_none'] at h
        cases i with
        | zero => simpa using hp
        | succ j => exact ih.mp h j
    · intro h
      have h0 := h 0
      simp only [List.drop_zero] at h0
      simp only [firstSubAt, h0, if_neg Bool.false_ne_true, Option.map_eq_none']
      exact ih.mpr fun i => h (i + 1)

theorem includesJS_eq_false_iff {s pat : Str} :
    includesJS s pat = false ↔ ∀ i, pat.isPrefixOf (s.drop i) = false := by
  have hs : ((firstSubAt pat s).isSome = false) ↔ firstSubAt pat s = none := by
    cases firstSubAt pat s <;> simp
  unfold includesJS
  rw [hs, firstSubAt_eq_none_iff]

theorem includesJS_of_isPre_drop {s pat : Str} {i : Nat}
    (h : pat.isPrefixOf (s.drop i) = true) : includesJS s pat = true := by
  by_contra hc
  have := (includesJS_eq_false_iff.mp (Bool.eq_false_iff.mpr hc)) i
  simp [h] at this

/-- If every position strictly inside `s` fails to start an occurrence of
`pat` in `s ++ pat`, then the first occurrence of `pat` in `s ++ pat` is
exactly at index `s.length`. -/
theorem firstSubAt_append_self {pat s : Str}
    (h : ∀ i, i < s.length → pat.isPrefixOf (s.drop i ++ pat) = false) :
    firstSubAt pat (s ++ pat) = some s.length := by
  induction s with
  | nil =>
    have : pat.isPrefixOf pat = true := by
      simp [ List.isPrefixOf_iff_prefix]
    simp [firstSubAt_of_isPre this]
  | cons c t ih =>
    have h0 : ¬ pat <+: c :: (t ++ pat) := by
      have hb := h 0 (by simp)
      simp only [List.drop_zero, List.cons_append] at hb
      intro hp
      rw [← List.isPrefixOf_iff_prefix] at hp
      simp [hp] at hb
    have hrec : firstSubAt pat (t ++ pat) = some t.length :=
      ih fun i hi => by
        have := h (i + 1) (by simpa using Nat.succ_lt_succ hi)
        simpa using this
    simp [firstSubAt, h0, hrec]

/-! ## The sentinel markers -/

/-- The start sentinel `START` (`bleManager.ts` line 372/516). -/
def startMark : Str := s2l "START"

/-- The end sentinel `END` (`bleManager.ts` line 372/522). -/
def endMark : Str := s2l "END"

/-- `END` cannot start at a position strictly inside `s` within
`s ++ END` unless it already occurs inside `s`: the marker admits no
self-overlap across the junction. -/
theorem endMark_no_straddle {s : Str} (hs : includesJS s endMark = false) :
    ∀ i, i < s.length → endMark.isPrefixOf (s.drop i ++ endMark) = false := by
  intro i hi
  have hnot := includesJS_eq_false_iff.mp hs i
  have hlen : 0 < (s.drop i).length := by
    simp only [List.length_drop]; omega
  have hNE : (('N' : Char) == 'E') = false := by decide
  have hDE : (('D' : Char) == 'E') = false := by decide
  cases h1 : s.drop i with
  | nil => rw [h1] at hlen; simp at hlen
  | cons x d1 =>
    cases d1 with
    | nil =>
      simp only [endMark, s2l, List.cons_append, List.nil_append, List.isPrefixOf, hNE]
      simp
    | cons y d2 =>
      cases d2 with
      | nil =>
        simp only [endMark, s2l, List.cons_append, List.nil_append, List.isPrefixOf, hDE]
        simp
      | cons z d3 =>
        rw [h1] at hnot
        by_contra hp
        rw [Bool.not_eq_false] at hp
        simp only [endMark, s2l, List.cons_append, List.isPrefixOf,
          Bool.and_eq_true] at hp
        simp [endMark, s2l, List.isPrefixOf, hp.1, hp.2.1, hp.2.2.1] at hnot

theorem includesJS_eq_true_iff {s pat : Str} :
    includesJS s pat = true ↔ ∃ i, pat.isPrefixOf (s.drop i) = true := by
  constructor
  · intro h
    by_contra hc
    push_neg at hc
    have hf : includesJS s pat = false := includesJS_eq_false_iff.mpr fun i => by
      cases hx : pat.isPrefixOf (s.drop i) with
      | false => rfl
      | true => exact absurd hx (hc i)
    simp [hf] at h
  · rintro ⟨i, hi⟩
    exact includesJS_of_isPre_drop hi

/-- In `s ++ END` where `END` does not occur inside `s`, a prefix of
the whole word that already includes `END` must be the whole word. -/
theorem endMark_unique_occurrence {s a b : Str}
    (hsplit : a ++ b = s ++ endMark)
    (hs : includesJS s endMark = false)
    (ha : includesJS a endMark = true) : b = [] := by
  obtain ⟨i, hi⟩ := includesJS_eq_true_iff.mp ha
  have hpre : endMark <+: a.drop i := List.isPrefixOf_iff_prefix.mp hi
  have hlen3 : 3 ≤ (a.drop i).length := by
    have := hpre.length_le
    simp only [endMark, s2l] at this
    simpa using this
  have hia : i + 3 ≤ a.length := by
    simp only [List.length_drop] at hlen3; omega
  have hablen : a.length + b.length = s.length + 3 := by
    have := congrArg List.length hsplit
    simpa [endMark, s2l] using this
  have hdropfull : (s ++ endMark).drop i = a.drop i ++ b := by
    rw [← hsplit, List.drop_append_of_le_length (by omega)]
  have hifull : endMark <+: (s ++ endMark).drop i := by
    rw [hdropfull]
    exact hpre.trans ( List.prefix_append _ _)
  rcases Nat.lt_or_ge i s.length with hlt | hge
  · have hstr := endMark_no_straddle hs i hlt
    rw [List.drop_append_of_le_length (Nat.le_of_lt hlt)] at hifull
    have hb : endMark.isPrefixOf (s.drop i ++ endMark) = true :=
      List.isPrefixOf_iff_prefix.mpr hifull
    simp [hb] at hstr
  · obtain ⟨k, hk⟩ := Nat.exists_eq_add_of_le hge
    rw [hk, List.drop_append] at hifull
    have hk0 : k = 0 := by
      by_contra hk0
      have := hifull.length_le
      simp only [endMark, s2l, List.length_drop] at this
      simp only [List.length_cons, List.length_nil] at this
      omega
    rw [hk0, Nat.add_zero] at hk
    have : a.length = s.length + 3 := by omega
    have hb0 : b.length = 0 := by omega
    exact List.length_eq_zero.mp hb0

theorem substringJS_eval {s : Str} {a b : Nat} (hab : a ≤ b) (hb : b ≤ s.length) :
    substringJS s (a : Int) (b : Int) = (s.drop a).take (b - a) := by
  simp only [substringJS]
  have ha' : (max 0 (min (a : Int) (s.length : Int))).toNat = a := by omega
  have hb' : (max 0 (min (b : Int) (s.length : Int))).toNat = b := by omega
  rw [ha', hb', Nat.min_eq_left hab, Nat.max_eq_right hab]

/-- On a buffer that is exactly `START ++ p ++ END`, where `END`
does not occur in `START ++ p`, the source's marker search finds the
outer markers and the extracted substring is exactly `p`. -/
theorem sentinel_extract {p : Str}
    (hnoend : includesJS (startMark ++ p) endMark = false) :
    indexOfJS (startMark ++ p ++ endMark) startMark = 0 ∧
    indexOfJS (startMark ++ p ++ endMark) endMark = ((5 + p.length : Nat) : Int) ∧
    substringJS (startMark ++ p ++ endMark) 5 ((5 : Int) + (p.length : Int)) = p := by
  have hstart : firstSubAt startMark (startMark ++ p ++ endMark) = some 0 := by
    apply firstSubAt_of_isPre
    apply List.isPrefixOf_iff_prefix.mpr
    rw [List.append_assoc]
    exact List.prefix_append _ _
  have hlen5 : startMark.length = 5 := by decide
  have hend : firstSubAt endMark ((startMark ++ p) ++ endMark)
      = some (startMark ++ p).length :=
    firstSubAt_append_self (endMark_no_straddle hnoend)
  have hlensp : (startMark ++ p).length = 5 + p.length := by
    simp [hlen5]
  have hlenfull : (startMark ++ p ++ endMark).length = 5 + p.length + 3 := by
    have h3 : endMark.length = 3 := by decide
    simp only [List.length_append, hlen5, h3]
  refine ⟨?_, ?_, ?_⟩
  · unfold indexOfJS
    rw [hstart]
    rfl
  · unfold indexOfJS
    rw [hend, hlensp]
  · have heval := substringJS_eval (s := startMark ++ p ++ endMark)
      (a := 5) (b := 5 + p.length) (by omega) (by rw [hlenfull]; omega)
    have hcast : substringJS (startMark ++ p ++ endMark) (5 : Int)
          ((5 : Int) + (p.length : Int))
        = substringJS (startMark ++ p ++ endMark) ((5 : Nat) : Int)
          ((5 + p.length : Nat) : Int) := by
      push_cast
      rfl
    rw [hcast, heval]
    have hdrop : (startMark ++ p ++ endMark).drop 5 = p ++ endMark := by
      rw [List.append_assoc]
      exact List.drop_left' hlen5
    rw [hdrop]
    have h55 : 5 + p.length - 5 = p.length := by omega
    rw [h55]
    exact List.take_left' rfl

/-! ## Fragmentation: `writeDataInChunks` (`bleManager.ts` lines 151-192) -/

/-- `BLE_CHUNK_DATA_SIZE` (`bleManager.ts` line 22). -/
def BLE_CHUNK_DATA_SIZE : Nat := 18

/-- The chunk-splitting loop of `writeDataInChunks` (lines 160-163):
`for (let i = 0; i < message.length; i += BLE_CHUNK_DATA_SIZE)
chunks.push(message.slice(i, i + BLE_CHUNK_DATA_SIZE))`. -/
def chunkMessage (message : Str) : List Str :=
  if h : message = [] then []
  else message.take BLE_CHUNK_DATA_SIZE
      :: chunkMessage (message.drop BLE_CHUNK_DATA_SIZE)
termination_by message.length
decreasing_by
  have hpos : 0 < message.length := List.length_pos.mpr h
  simp only [List.length_drop, BLE_CHUNK_DATA_SIZE]
  omega

theorem chunkMessage_spec_aux :
    ∀ n (m : Str), m.length ≤ n →
      (chunkMessage m).flatten = m ∧
      (chunkMessage m).length = (m.length + 17) / 18 ∧
      ∀ c ∈ chunkMessage m, c.length ≤ 18 := by
  intro n
  induction n with
  | zero =>
    intro m hm
    have hnil : m = [] := by cases m <;> simp_all
    subst hnil
    simp [chunkMessage]
  | succ k ih =>
    intro m hm
    by_cases hnil : m = []
    · subst hnil; simp [chunkMessage]
    · rw [chunkMessage, dif_neg hnil]
      have hpos : 0 < m.length := List.length_pos.mpr hnil
      have hle : (m.drop BLE_CHUNK_DATA_SIZE).length ≤ k := by
        simp only [List.length_drop, BLE_CHUNK_DATA_SIZE]; omega
      obtain ⟨ihj, ihc, ihs⟩ := ih (m.drop BLE_CHUNK_DATA_SIZE) hle
      refine ⟨by simp [ihj], ?_, ?_⟩
      · simp only [BLE_CHUNK_DATA_SIZE] at ihc ⊢
        simp only [List.length_cons, ihc, List.length_drop]
        omega
      · intro c hc
        rcases List.mem_cons.mp hc with hc | hc
        · subst hc
          simpa [BLE_CHUNK_DATA_SIZE] using List.length_take_le 18 m
        · exact ihs c hc

/-- Concatenating the chunks in order restores the message. -/
theorem chunkMessage_flatten (m : Str) : (chunkMessage m).flatten = m :=
  (chunkMessage_spec_aux m.length m le_rfl).1

/-- There are exactly `ceil(len / 18)` chunks. -/
theorem chunkMessage_count (m : Str) :
    (chunkMessage m).length = (m.length + 17) / 18 :=
  (chunkMessage_spec_aux m.length m le_rfl).2.1

/-- Every chunk has at most 18 characters. -/
theorem chunkMessage_size (m : Str) :
    ∀ c ∈ chunkMessage m, c.length ≤ 18 :=
  (chunkMessage_spec_aux m.length m le_rfl).2.2

/-! ## Responder: `handleIoTRegistrationData` (`bleManager.ts` lines 429-560) -/

/-- One peer's slice of the module-level session store:
the entries `deviceDataChunks.get(deviceId)` and
`deviceConnectionCodes.get(deviceId)` (`bleManager.ts` lines 425-427).
`none` models an absent map entry (after `delete` / before any `set`). -/
structure RState where
  chunks : Option Str
  code : Option Str
deriving DecidableEq, Repr

/-- The observable callback invocations of one `handleIoTRegistrationData`
call, in source order.  Each constructor names one call site:
`statusCodeReceived` = line 450 status, `confirmRequested` = line 469
`onConnectionCodeReceived`, `statusCodeSending` = line 472 status,
`notifySerial` = the line 461/477 `sendNotification(serialNumber)` attempt,
`statusSerialSent` = line 462/478, `statusSerialSendFailed` = line 465/481,
`statusInvalidCode` = line 486, `statusRegComplete` = line 492/533,
`complete` = the line 494/535 `onComplete` invocation with its arguments,
`statusJwtStart` = line 518, `statusJwtParseError` = line 546,
`statusJwtProgress` = line 553 (carrying the accumulator length the
displayed percentage is derived from), `statusProcessingFailed` = the
line 558 status inside the outer `catch`. -/
inductive REvent
  | statusCodeReceived (code : Str)
  | confirmRequested (code : Str)
  | statusCodeSending (code : Str)
  | notifySerial (sn : Str)
  | statusSerialSent (sn : Str)
  | statusSerialSendFailed
  | statusInvalidCode
  | statusRegComplete
  | complete (connectionCode serialNumber jwtToken : Str)
  | statusJwtStart
  | statusJwtParseError
  | statusJwtProgress (accLen : Nat)
  | statusProcessingFailed
deriving DecidableEq, Repr

/-- The `default:` arm of the switch (lines 504-554): append the payload
to this peer's accumulator, then look for the `START` / `END` marks;
extract and complete on a well-formed frame, otherwise report a parse
error (`END` present but the index check fails) or progress.  The
`onComplete` callback may throw (`completeRes`); JS map mutations made
before the throw are kept, those after it are skipped. -/
def handleAccumulate (sn : Str) (st : RState) (data : Str)
    (completeRes : Except String Unit) : RState × List REvent × Option String :=
  let existing := st.chunks.getD []
  let combined := existing ++ data
  let st1 : RState := ⟨some combined, st.code⟩
  let evs0 : List REvent :=
    if includesJS combined startMark then [.statusJwtStart] else []
  if includesJS combined endMark then
    let startIndex : Int := indexOfJS combined startMark + 5
    let endIndex : Int := indexOfJS combined endMark
    if startIndex ≥ 5 ∧ endIndex > startIndex then
      let jwtToken := substringJS combined startIndex endIndex
      match completeRes with
      | .ok _ => (⟨none, none⟩,
          evs0 ++ [.statusRegComplete, .complete (st.code.getD []) sn jwtToken],
          none)
      | .error e => (st1,
          evs0 ++ [.statusRegComplete, .complete (st.code.getD []) sn jwtToken],
          some e)
    else
      (st1, evs0 ++ [.statusJwtParseError], none)
  else
    (st1, evs0 ++ [.statusJwtProgress combined.length], none)

/-- The `switch (dataType)` statement (lines 442-555).  `hook` says
whether an `onConnectionCodeReceived` callback was supplied; `sendRes`
is the outcome of the `sendNotification(serialNumber)` call (its failure
is caught by the inner try/catch of lines 476-482); `completeRes` is the
outcome of the `onComplete` callback.  The third component is the
exception escaping the switch, if any. -/
def handleSwitch (sn : Str) (hook : Bool) (st : RState) (data : Str)
    (sendRes completeRes : Except String Unit) :
    RState × List REvent × Option String :=
  match getDataType data with
  | .connectionCode =>
    if validateConnectionCode data then
      let st1 : RState := ⟨none, some data⟩
      if hook then
        (st1, [.statusCodeReceived data, .confirmRequested data], none)
      else
        match sendRes with
        | .ok _ => (st1, [.statusCodeReceived data, .statusCodeSending data,
            .notifySerial sn, .statusSerialSent sn], none)
        | .error _ => (st1, [.statusCodeReceived data, .statusCodeSending data,
            .notifySerial sn, .statusSerialSendFailed], none)
    else
      (st, [.statusInvalidCode], none)
  | .jwtToken =>
    match completeRes with
    | .ok _ => (⟨none, none⟩,
        [.statusRegComplete, .complete (st.code.getD []) sn data], none)
    | .error e => (st,
        [.statusRegComplete, .complete (st.code.getD []) sn data], some e)
  | .serialNumber => handleAccumulate sn st data completeRes
  | .unknown => handleAccumulate sn st data completeRes

/-- `handleIoTRegistrationData` with its outer try/catch (lines 441 and
556-559): an exception escaping the switch is caught and reported as the
`데이터 처리 실패` status, so the async function always resolves — the
`Except` error channel models a rejected promise and is never used. -/
def handleIoTRegistrationDataE (sn : Str) (hook : Bool) (st : RState)
    (data : Str) (sendRes completeRes : Except String Unit) :
    Except String (RState × List REvent) :=
  match handleSwitch sn hook st data sendRes completeRes with
  | (st', evs, none) => .ok (st', evs)
  | (st', evs, some _) => .ok (st', evs ++ [.statusProcessingFailed])

/-- The same handler as a total function (the try/catch guarantees the
`.error` fallback arm is unreachable). -/
def handleIoTRegistrationData (sn : Str) (hook : Bool) (st : RState)
    (data : Str) (sendRes completeRes : Except String Unit) :
    RState × List REvent :=
  match handleIoTRegistrationDataE sn hook st data sendRes completeRes with
  | .ok r => r
  | .error _ => (st, [])

/-- Deliver a sequence of inbound payloads from one peer, in order, with
both callback oracles succeeding; collects all callback invocations. -/
def runHandler (sn : Str) (hook : Bool) : RState → List Str → RState × List REvent
  | st, [] => (st, [])
  | st, d :: rest =>
    let r := handleIoTRegistrationData sn hook st d (.ok ()) (.ok ())
    let r' := runHandler sn hook r.1 rest
    (r'.1, r.2 ++ r'.2)

/-- Recognizes an `onComplete` invocation. -/
def isCompleteEv : REvent → Bool
  | .complete _ _ _ => true
  | _ => false

/-- Recognizes a `sendNotification(serialNumber)` attempt. -/
def isNotifyEv : REvent → Bool
  | .notifySerial _ => true
  | _ => false

/-! ## Initiator: the credential-sending step of `startIoTRegistration`
(`bleManager.ts` lines 364-401) -/

/-- Callback invocations visible to the caller of `startIoTRegistration`. -/
inductive IEvent
  | status (m : String)
  | errorCb (m : String)
  | completeCb (serialNumber jwtToken : Str)
deriving DecidableEq, Repr

/-- `s.includes(pat)` on Lean string literals. -/
def includesStr (s pat : String) : Bool := includesJS s.data pat.data

/-- The error-message dispatch of lines 390-400: a message containing
`timed out` maps to the timeout message, else one containing
`cancelled` maps to the cancellation message, else the generic
`JWT 토큰 처리 실패: ` prefix is prepended. -/
def errorMessageFor (m : String) : String :=
  if includesStr m "timed out" then "JWT 토큰 전송 타임아웃 - 재시도해주세요"
  else if includesStr m "cancelled" then "JWT 토큰 전송 취소됨"
  else "JWT 토큰 처리 실패: " ++ m

/-- The write loop of `writeDataInChunks` (lines 168-189): writes chunks
in order; `oracle i` is the outcome of the i-th
`writeCharacteristicWithResponseForService` call (`some e` = it threw
`e`).  The `catch` at line 185 rethrows, aborting the loop.  Returns the
list of attempted chunk indices and the propagated error, if any. -/
def writeChunksLoop (oracle : Nat → Option String) :
    Nat → List Str → List Nat × Option String
  | _, [] => ([], none)
  | i, _ :: rest =>
    match oracle i with
    | some e => ([i], some e)
    | none =>
      let r := writeChunksLoop oracle (i + 1) rest
      (i :: r.1, r.2)

/-- `writeDataInChunks` (lines 151-192) applied to a message: split into
chunks of `BLE_CHUNK_DATA_SIZE` and write them in order. -/
def writeDataInChunks (message : Str) (oracle : Nat → Option String) :
    List Nat × Option String :=
  writeChunksLoop oracle 0 (chunkMessage message)

/-- Outcome of the credential-sending step. -/
structure InitiatorOutcome where
  isCompleted : Bool
  attempted : List Nat
  events : List IEvent
deriving DecidableEq, Repr

/-- The `dataType === serialNumber` branch of `startIoTRegistration`
(lines 364-401), given the serial `data`, the credential `jwtToken`
obtained from `simulateServerRequest`, and the per-chunk write oracle:
wrap the token as `START<token>END`, write it in chunks, and on success
set `isCompleted`, emit the completion status and `onComplete`; on a
chunk failure set `isCompleted` and invoke `onError` once with the
message produced by the lines 390-400 dispatch. -/
def sendJwtPhase (data jwtToken : Str) (oracle : Nat → Option String) :
    InitiatorOutcome :=
  let markedJwtToken := startMark ++ jwtToken ++ endMark
  let r := writeDataInChunks markedJwtToken oracle
  match r.2 with
  | none =>
    ⟨true, r.1,
      [.status "시리얼 번호 수신 - JWT 토큰 생성 중...",
       .status "JWT 토큰 전송 중...",
       .status "IoT 기기 등록 완료!",
       .completeCb data jwtToken]⟩
  | some e =>
    ⟨true, r.1,
      [.status "시리얼 번호 수신 - JWT 토큰 생성 중...",
       .status "JWT 토큰 전송 중...",
       .errorCb (errorMessageFor e)]⟩

/-- Recognizes an `onError` invocation. -/
def isErrorEv : IEvent → Bool
  | .errorCb _ => true
  | _ => false

/-- Recognizes an initiator `onComplete` invocation. -/
def isCompleteIEv : IEvent → Bool
  | .completeCb _ _ => true
  | _ => false

/-! ## Credential generation (`bleUtils.ts` lines 23-44) -/

/-- Decimal digit character for a digit value (values above 9 cannot
arise from `n % 10` / the `n < 10` guard). -/
def digitChar : Nat → Char
  | 0 => '0' | 1 => '1' | 2 => '2' | 3 => '3' | 4 => '4'
  | 5 => '5' | 6 => '6' | 7 => '7' | 8 => '8' | _ => '9'

/-- Decimal rendering of a nonnegative integer, most significant digit
first; models JS number-to-string for the integers involved. -/
def natToStrAux : Nat → Str → Str
  | n, acc =>
    if h : n < 10 then digitChar n :: acc
    else natToStrAux (n / 10) (digitChar (n % 10) :: acc)
termination_by n _ => n
decreasing_by
  exact Nat.div_lt_self (by omega) (by omega)

/-- JS `String(n)` for a nonnegative integer `n`. -/
def natToStr (n : Nat) : Str := natToStrAux n []

/-- Lowercase hexadecimal digit (used by `\uXXXX` escapes). -/
def hexDigitChar : Nat → Char
  | 0 => '0' | 1 => '1' | 2 => '2' | 3 => '3' | 4 => '4'
  | 5 => '5' | 6 => '6' | 7 => '7' | 8 => '8' | 9 => '9'
  | 10 => 'a' | 11 => 'b' | 12 => 'c' | 13 => 'd' | 14 => 'e' | _ => 'f'

/-- `JSON.stringify` escaping of one character inside a string value. -/
def jsonEscapeChar (c : Char) : Str :=
  if c = '"' then ['\\', '"']
  else if c = '\\' then ['\\', '\\']
  else if c = Char.ofNat 8 then ['\\', 'b']
  else if c = Char.ofNat 9 then ['\\', 't']
  else if c = Char.ofNat 10 then ['\\', 'n']
  else if c = Char.ofNat 12 then ['\\', 'f']
  else if c = Char.ofNat 13 then ['\\', 'r']
  else if c.toNat < 32 then
    ['\\', 'u', '0', '0', hexDigitChar (c.toNat / 16), hexDigitChar (c.toNat % 16)]
  else [c]

/-- `JSON.stringify` of a string value: quoted and escaped. -/
def jsonQuote (s : Str) : Str := '"' :: s.flatMap jsonEscapeChar ++ ['"']

/-- The base64 alphabet used by `btoa`. -/
def b64Alphabet : Str :=
  s2l "ABCDEFGHIJKLMNOPQRSTUVWXYZabcdefghijklmnopqrstuvwxyz0123456789+/"

/-- Alphabet character of a 6-bit group. -/
def b64Char (n : Nat) : Char := b64Alphabet.getD n 'A'

/-- Base64 encoding of a byte sequence (standard alphabet, `=` padding). -/
def b64Encode : List Nat → Str
  | [] => []
  | [a] => [b64Char (a / 4), b64Char (a % 4 * 16), '=', '=']
  | [a, b] => [b64Char (a / 4), b64Char (a % 4 * 16 + b / 16),
      b64Char (b % 16 * 4), '=']
  | a :: b :: c :: rest =>
    b64Char (a / 4) :: b64Char (a % 4 * 16 + b / 16)
      :: b64Char (b % 16 * 4 + c / 64) :: b64Char (c % 64) :: b64Encode rest

/-- A character `btoa` accepts: code point below 256; `none` models the
`InvalidCharacterError` thrown otherwise. -/
def byteOfChar (c : Char) : Option Nat :=
  if c.toNat < 256 then some c.toNat else none

/-- The byte sequence of a string, failing on any character above
`U+00FF` (the `btoa` input check). -/
def bytesOf : Str → Option (List Nat)
  | [] => some []
  | c :: t => do
    let b ← byteOfChar c
    let bs ← bytesOf t
    pure (b :: bs)

/-- JS `btoa`. -/
def btoa (s : Str) : Option Str :=
  (bytesOf s).map b64Encode

/-- `JSON.stringify` of the fixed `alg HS256, typ JWT` header object (insertion order). -/
def headerJson : Str := s2l "\x7b\"alg\":\"HS256\",\"typ\":\"JWT\"\x7d"

/-- `JSON.stringify(mockPayload)` for
`deviceId: serialNumber, userId user123, iat, exp` in insertion
order, with `iat`/`expSec` nonnegative integers. -/
def payloadJson (serialNumber : Str) (iat expSec : Nat) : Str :=
  s2l "\x7b\"deviceId\":" ++ jsonQuote serialNumber
    ++ s2l ",\"userId\":\"user123\",\"iat\":" ++ natToStr iat
    ++ s2l ",\"exp\":" ++ natToStr expSec ++ s2l "\x7d"

/-- `generateJwtToken` (`bleUtils.ts` lines 23-37; the copy in
`bleManager.ts` lines 41-54 is identical): base64 header and payload
joined with the `mock-signature-<Date.now()>` trailer by `.`
separators.  `now` is the `Date.now()` millisecond reading; `none`
models a `btoa` throw on a character above `U+00FF`. -/
def generateJwtToken (serialNumber : Str) (now : Nat) : Option Str := do
  let header ← btoa headerJson
  let payload ← btoa (payloadJson serialNumber (now / 1000)
    (now / 1000 + 60 * 60 * 24))
  let signature := s2l "mock-signature-" ++ natToStr now
  pure (header ++ '.' :: payload ++ '.' :: signature)

/-- JS `token.split` on the dot character. -/
def splitOnDot : Str → List Str
  | [] => [[]]
  | c :: t =>
    if c = '.' then [] :: splitOnDot t
    else
      match splitOnDot t with
      | [] => [[c]]
      | h :: r => (c :: h) :: r

/-- `isValidJwtToken` (`bleUtils.ts` lines 40-44): an empty token is
falsy and rejected; otherwise the dot-split must have exactly 3 parts. -/
def isValidJwtToken (token : Str) : Bool :=
  if token = [] then false
  else (splitOnDot token).length = 3

/-! ### Character-set lemmas for the generated credential -/

/-- Characters usable in btoa input and never equal to a dot. -/
abbrev goodChar (c : Char) : Prop := c.toNat < 256 ∧ c ≠ '.'

theorem digitChar_good (d : Nat) : goodChar (digitChar d) := by
  unfold digitChar
  split <;> exact ⟨by decide, by decide⟩

theorem natToStrAux_good :
    ∀ n acc, (∀ c ∈ acc, goodChar c) → ∀ c ∈ natToStrAux n acc, goodChar c := by
  intro n
  induction n using Nat.strong_induction_on with
  | _ n ih =>
    intro acc hacc c hc
    rw [natToStrAux] at hc
    split at hc
    · rcases List.mem_cons.mp hc with h | h
      · subst h; exact digitChar_good n
      · exact hacc c h
    · refine ih (n / 10) (Nat.div_lt_self (by omega) (by omega))
        (digitChar (n % 10) :: acc) ?_ c hc
      intro x hx
      rcases List.mem_cons.mp hx with h | h
      · subst h; exact digitChar_good (n % 10)
      · exact hacc x h

theorem natToStr_good (n : Nat) : ∀ c ∈ natToStr n, goodChar c :=
  natToStrAux_good n [] (by simp)

theorem hexDigitChar_byte (d : Nat) : (hexDigitChar d).toNat < 256 := by
  unfold hexDigitChar
  split <;> decide

theorem jsonEscapeChar_byte {c : Char} (h : c.toNat < 256) :
    ∀ x ∈ jsonEscapeChar c, x.toNat < 256 := by
  intro x hx
  unfold jsonEscapeChar at hx
  split_ifs at hx
  all_goals
    simp only [List.mem_cons, List.not_mem_nil, or_false] at hx
  · rcases hx with rfl | rfl <;> decide
  · rcases hx with rfl | rfl <;> decide
  · rcases hx with rfl | rfl <;> decide
  · rcases hx with rfl | rfl <;> decide
  · rcases hx with rfl | rfl <;> decide
  · rcases hx with rfl | rfl <;> decide
  · rcases hx with rfl | rfl <;> decide
  · rcases hx with rfl | rfl | rfl | rfl | rfl | rfl
    · decide
    · decide
    · decide
    · decide
    · exact hexDigitChar_byte _
    · exact hexDigitChar_byte _
  · subst hx
    exact h

theorem bytesOf_ok :
    ∀ s : Str, (∀ c ∈ s, c.toNat < 256) →
      ∃ bs, bytesOf s = some bs ∧ bs.length = s.length := by
  intro s
  induction s with
  | nil => exact fun _ => ⟨[], rfl, rfl⟩
  | cons c t ih =>
    intro h
    obtain ⟨bs, hbs, hlen⟩ := ih fun x hx => h x (List.mem_cons_of_mem _ hx)
    refine ⟨c.toNat :: bs, ?_, by simp [hlen]⟩
    have hc : byteOfChar c = some c.toNat := by
      simp [byteOfChar, h c (List.mem_cons_self c t)]
    rw [bytesOf, hc, hbs]
    rfl

theorem b64Char_mem (n : Nat) : b64Char n ∈ b64Alphabet := by
  unfold b64Char
  rw [List.getD_eq_getElem?_getD]
  cases h : b64Alphabet[n]? with
  | none => simp only [Option.getD_none]; decide
  | some x => simpa using List.getElem?_mem h

theorem b64Encode_good :
    ∀ fuel bs, bs.length ≤ fuel → ∀ x ∈ b64Encode bs, goodChar x := by
  have halpha : ∀ x ∈ b64Alphabet, goodChar x := by decide
  have hchar : ∀ n, goodChar (b64Char n) := fun n => halpha _ (b64Char_mem n)
  intro fuel
  induction fuel with
  | zero =>
    intro bs hbs
    have : bs = [] := by cases bs <;> simp_all
    subst this
    simp [b64Encode]
  | succ k ih =>
    intro bs hbs x hx
    match bs with
    | [] => simp [b64Encode] at hx
    | [a] =>
      simp only [b64Encode, List.mem_cons, List.not_mem_nil, or_false] at hx
      rcases hx with rfl | rfl | rfl | rfl
      · exact hchar _
      · exact hchar _
      · exact ⟨by decide, by decide⟩
      · exact ⟨by decide, by decide⟩
    | [a, b] =>
      simp only [b64Encode, List.mem_cons, List.not_mem_nil, or_false] at hx
      rcases hx with rfl | rfl | rfl | rfl
      · exact hchar _
      · exact hchar _
      · exact hchar _
      · exact ⟨by decide, by decide⟩
    | a :: b :: c :: rest =>
      simp only [b64Encode, List.mem_cons] at hx
      rcases hx with rfl | rfl | rfl | rfl | hx
      · exact hchar _
      · exact hchar _
      · exact hchar _
      · exact hchar _
      · exact ih rest (by simp at hbs; omega) x hx

theorem b64Encode_ne_nil {bs : List Nat} (h : bs ≠ []) : b64Encode bs ≠ [] := by
  match bs with
  | [] => exact absurd rfl h
  | [a] => simp [b64Encode]
  | [a, b] => simp [b64Encode]
  | a :: b :: c :: rest => simp [b64Encode]

/-! ### Dot-split lemmas -/

theorem splitOnDot_ne_nil : ∀ s : Str, splitOnDot s ≠ [] := by
  intro s
  induction s with
  | nil => simp [splitOnDot]
  | cons c t ih =>
    rw [splitOnDot]
    split
    · simp
    · cases h : splitOnDot t <;> simp

theorem splitOnDot_append_nodot :
    ∀ (l m : Str), (∀ c ∈ l, c ≠ '.') →
      ∃ f r, splitOnDot m = f :: r ∧ splitOnDot (l ++ m) = (l ++ f) :: r := by
  intro l
  induction l with
  | nil =>
    intro m _
    cases h : splitOnDot m with
    | nil => exact absurd h (splitOnDot_ne_nil m)
    | cons f r => exact ⟨f, r, rfl, by simpa using h⟩
  | cons c l' ih =>
    intro m hno
    obtain ⟨f, r, hm, hlm⟩ := ih m fun x hx => hno x (List.mem_cons_of_mem _ hx)
    refine ⟨f, r, hm, ?_⟩
    have hc : c ≠ '.' := hno c (List.mem_cons_self c l')
    rw [List.cons_append, splitOnDot, if_neg hc, hlm]
    rfl

theorem splitOnDot_nodot {s : Str} (h : ∀ c ∈ s, c ≠ '.') :
    splitOnDot s = [s] := by
  obtain ⟨f, r, hm, hlm⟩ := splitOnDot_append_nodot s [] h
  have hm' : ([] : Str) :: ([] : List Str) = f :: r := hm
  injection hm' with hf hr
  rw [List.append_nil] at hlm
  rw [hlm, ← hf, ← hr, List.append_nil]

/-- Splitting `H ++ '.' ++ P ++ '.' ++ S` on dots, when none of the three
parts contains a dot, yields exactly `[H, P, S]`. -/
theorem splitOnDot_three {H P S : Str}
    (hH : ∀ c ∈ H, c ≠ '.') (hP : ∀ c ∈ P, c ≠ '.') (hS : ∀ c ∈ S, c ≠ '.') :
    splitOnDot (H ++ '.' :: (P ++ '.' :: S)) = [H, P, S] := by
  have hS1 : splitOnDot ('.' :: S) = [] :: [S] := by
    rw [splitOnDot, if_pos rfl, splitOnDot_nodot hS]
  have hPS : splitOnDot (P ++ '.' :: S) = P :: [S] := by
    obtain ⟨f, r, hm, hlm⟩ := splitOnDot_append_nodot P ('.' :: S) hP
    rw [hS1] at hm
    injection hm with hf hr
    rw [hlm, ← hf, ← hr, List.append_nil]
  have hdot : splitOnDot ('.' :: (P ++ '.' :: S)) = [] :: (P :: [S]) := by
    rw [splitOnDot, if_pos rfl, hPS]
  obtain ⟨f, r, hm, hlm⟩ := splitOnDot_append_nodot H ('.' :: (P ++ '.' :: S)) hH
  rw [hdot] at hm
  injection hm with hf hr
  rw [hlm, ← hf, ← hr, List.append_nil]

/-- Every character of the serialized mock payload is a byte when the
serial number's characters are. -/
theorem payloadJson_bytes {sn : Str} (hsn : ∀ c ∈ sn, c.toNat < 256)
    (iat expSec : Nat) :
    ∀ c ∈ payloadJson sn iat expSec, c.toNat < 256 := by
  have hlit1 : ∀ x ∈ s2l "\x7b\"deviceId\":", x.toNat < 256 := by decide
  have hlit2 : ∀ x ∈ s2l ",\"userId\":\"user123\",\"iat\":", x.toNat < 256 := by
    decide
  have hlit3 : ∀ x ∈ s2l ",\"exp\":", x.toNat < 256 := by decide
  have hlit4 : ∀ x ∈ s2l "\x7d", x.toNat < 256 := by decide
  intro c hc
  unfold payloadJson at hc
  simp only [List.mem_append] at hc
  rcases hc with (((((hc | hc) | hc) | hc) | hc) | hc) | hc
  · exact hlit1 c hc
  · unfold jsonQuote at hc
    rcases List.mem_cons.mp hc with rfl | hc
    · decide
    rcases List.mem_append.mp hc with hc | hc
    · obtain ⟨a, ha, hca⟩ := List.mem_flatMap.mp hc
      exact jsonEscapeChar_byte (hsn a ha) c hca
    · rcases List.mem_cons.mp hc with rfl | hc
      · decide
      · simp at hc
  · exact hlit2 c hc
  · exact (natToStr_good iat c hc).1
  · exact hlit3 c hc
  · exact (natToStr_good expSec c hc).1
  · exact hlit4 c hc

/-- First-character mismatch defeats a prefix test. -/
theorem isPre_false_of_head {a b : Char} (gs ts : Str)
    (hab : (a == b) = false) :
    (a :: gs).isPrefixOf (b :: ts) = false := by
  simp only [List.isPrefixOf, hab, Bool.false_and]

/-- Both classifiers call a well-shaped three-part token a Credential. -/
theorem getDataType_jwt_of (t : Str) (h6 : t.length ≠ 6)
    (hTAB : (s2l "TAB-").isPrefixOf t = false)
    (hIOT : (s2l "IOT-").isPrefixOf t = false)
    (hTABLET : (s2l "TABLET-").isPrefixOf t = false)
    (heyJ : (s2l "eyJ").isPrefixOf t = true)
    (hdots : 2 ≤ countDots t) :
    getDataType t = .jwtToken ∧ getDataTypeUtils t = .jwtToken := by
  constructor
  · unfold getDataType
    rw [if_neg (by simp [h6]), if_neg (by simp [hTAB, hIOT, hTABLET]),
      if_pos (by simp [heyJ, hdots])]
  · unfold getDataTypeUtils
    rw [if_neg (by simp [h6]), if_neg (by simp [hTAB, hIOT, hTABLET]),
      if_pos (by simp [heyJ])]

/-! ## Classification helper lemmas -/

/-- The first branch condition of both classifiers and of
`validateConnectionCode`, unfolded. -/
theorem condCode_iff (s : Str) :
    (decide (s.length = 6) && regexUpperAlnumPlus s) = true
      ↔ s.length = 6 ∧ ∀ c ∈ s, isUpperAlnum c = true := by
  rw [Bool.and_eq_true, decide_eq_true_eq]
  constructor
  · rintro ⟨h6, hr⟩
    refine ⟨h6, ?_⟩
    rw [regexUpperAlnumPlus, Bool.and_eq_true, List.all_eq_true] at hr
    exact hr.2
  · rintro ⟨h6, hall⟩
    refine ⟨h6, ?_⟩
    rw [regexUpperAlnumPlus, Bool.and_eq_true]
    refine ⟨?_, List.all_eq_true.mpr hall⟩
    have hne : s ≠ [] := by
      intro h
      rw [h] at h6
      simp at h6
    simp [hne]

theorem getDataType_code_iff (s : Str) :
    getDataType s = .connectionCode
      ↔ s.length = 6 ∧ ∀ c ∈ s, isUpperAlnum c = true := by
  rw [← condCode_iff]
  unfold getDataType
  split_ifs with h1 h2 h3 <;> simp_all

theorem getDataTypeUtils_code_iff (s : Str) :
    getDataTypeUtils s = .connectionCode
      ↔ s.length = 6 ∧ ∀ c ∈ s, isUpperAlnum c = true := by
  rw [← condCode_iff]
  unfold getDataTypeUtils
  split_ifs with h1 h2 h3 <;> simp_all

theorem validateConnectionCode_iff (s : Str) :
    validateConnectionCode s = true
      ↔ s.length = 6 ∧ ∀ c ∈ s, isUpperAlnum c = true := by
  rw [← condCode_iff]
  unfold validateConnectionCode
  rfl

/-! ## Evaluation lemmas for the responder handler -/

theorem includes_of_indexOf_nat {s pat : Str} {n : Nat}
    (h : indexOfJS s pat = (n : Int)) : includesJS s pat = true := by
  unfold indexOfJS at h
  unfold includesJS
  cases hf : firstSubAt pat s with
  | some i => simp [hf]
  | none =>
    rw [hf] at h
    simp only [] at h
    omega

theorem handleSwitch_eq_accumulate {sn : Str} {hook : Bool} {st : RState}
    {data : Str} {sendRes completeRes : Except String Unit}
    (h : getDataType data = .serialNumber ∨ getDataType data = .unknown) :
    handleSwitch sn hook st data sendRes completeRes
      = handleAccumulate sn st data completeRes := by
  unfold handleSwitch
  rcases h with h | h <;> rw [h]

theorem handleTop_of_switch_none {sn : Str} {hook : Bool} {st st' : RState}
    {data : Str} {sendRes completeRes : Except String Unit}
    {evs : List REvent}
    (h : handleSwitch sn hook st data sendRes completeRes = (st', evs, none)) :
    handleIoTRegistrationData sn hook st data sendRes completeRes
      = (st', evs) := by
  unfold handleIoTRegistrationData handleIoTRegistrationDataE
  rw [h]

/-- Evaluation of the `default:` arm when the accumulated buffer does not
yet contain the end marker: the fragment is appended and only status
events are emitted. -/
theorem handleAccumulate_noEnd {sn : Str} {st : RState} {data : Str}
    {completeRes : Except String Unit}
    (hnoend : includesJS (st.chunks.getD [] ++ data) endMark = false) :
    handleAccumulate sn st data completeRes
      = (⟨some (st.chunks.getD [] ++ data), st.code⟩,
         (if includesJS (st.chunks.getD [] ++ data) startMark
          then [REvent.statusJwtStart] else [])
           ++ [.statusJwtProgress (st.chunks.getD [] ++ data).length],
         none) := by
  unfold handleAccumulate
  simp only [hnoend, Bool.false_eq_true, if_false]

/-- Evaluation of the `default:` arm when the appended fragment completes
the frame `START ++ p ++ END` with `p` nonempty and no premature end
marker: the payload is extracted, completion fires, and both session
fields are cleared. -/
theorem handleAccumulate_complete {sn : Str} {st : RState} {data p : Str}
    (hbuf : st.chunks.getD [] ++ data = startMark ++ p ++ endMark)
    (hp : p ≠ [])
    (hnoend : includesJS (startMark ++ p) endMark = false) :
    handleAccumulate sn st data (.ok ())
      = (⟨none, none⟩,
         [REvent.statusJwtStart, .statusRegComplete,
          .complete (st.code.getD []) sn p], none) := by
  obtain ⟨hidxS, hidxE, hsub⟩ := sentinel_extract (p := p) hnoend
  have hplen : 0 < p.length := List.length_pos.mpr hp
  have hEincl : includesJS (startMark ++ p ++ endMark) endMark = true :=
    includes_of_indexOf_nat hidxE
  have hSincl : includesJS (startMark ++ p ++ endMark) startMark = true :=
    includes_of_indexOf_nat (n := 0) (by simpa using hidxS)
  unfold handleAccumulate
  simp only [hbuf, hEincl, hSincl, hidxS, hidxE, eq_self_iff_true, if_true]
  rw [if_pos (by constructor <;> omega)]
  have harg : (0 : Int) + 5 = (5 : Int) := by omega
  have harg2 : ((5 + p.length : Nat) : Int) = (5 : Int) + (p.length : Int) := by
    omega
  rw [harg, harg2, hsub]
  rfl

/-- The whole handler is the switch followed by the outer catch: events
are those of the switch, plus the catch's status report when the switch
raised. -/
theorem handle_eq (sn : Str) (hook : Bool) (st : RState) (data : Str)
    (sendRes completeRes : Except String Unit) :
    handleIoTRegistrationData sn hook st data sendRes completeRes
      = ((handleSwitch sn hook st data sendRes completeRes).1,
         (handleSwitch sn hook st data sendRes completeRes).2.1
           ++ (if (handleSwitch sn hook st data sendRes completeRes).2.2.isSome
               then [REvent.statusProcessingFailed] else [])) := by
  unfold handleIoTRegistrationData handleIoTRegistrationDataE
  rcases h : handleSwitch sn hook st data sendRes completeRes with ⟨st', evs, exc⟩
  cases exc <;> simp

/-- Any single handler call invokes `onComplete` at most once. -/
theorem handleSwitch_complete_count (sn : Str) (hook : Bool) (st : RState)
    (data : Str) (sendRes completeRes : Except String Unit) :
    (((handleSwitch sn hook st data sendRes completeRes).2.1).filter
      isCompleteEv).length ≤ 1 := by
  simp only [handleSwitch, handleAccumulate]
  repeat' split
  all_goals simp [isCompleteEv, List.filter]

/-- When the `onComplete` callback returns normally, any completion
emitted by the switch clears both session fields, raises nothing, and
carries the stored code (empty when absent) and the configured serial. -/
theorem handleSwitch_complete_ok (sn : Str) (hook : Bool) (st : RState)
    (data : Str) (sendRes : Except String Unit) (c s j : Str)
    (h : REvent.complete c s j
        ∈ (handleSwitch sn hook st data sendRes (.ok ())).2.1) :
    (handleSwitch sn hook st data sendRes (.ok ())).1 = ⟨none, none⟩ ∧
    (handleSwitch sn hook st data sendRes (.ok ())).2.2 = none ∧
    c = st.code.getD [] ∧ s = sn := by
  simp only [handleSwitch, handleAccumulate] at h ⊢
  repeat' split at h
  all_goals simp_all [isCompleteEv]

end BleTransfer

namespace BleTransfer

/-! ## Claim theorems -/

/-- **C2.** Fragmentation correctness: `writeDataInChunks` splits any
message into exactly `ceil(len / 18)` chunks (`(len + 17) / 18` in
truncating arithmetic), each chunk at most 18 characters long, and the
in-order concatenation of the chunks is the original message. -/
theorem writeDataInChunks_fragmentation (message : Str) :
    (chunkMessage message).length = (message.length + 17) / 18 ∧
    (∀ c ∈ chunkMessage message, c.length ≤ 18) ∧
    (chunkMessage message).flatten = message :=
  ⟨chunkMessage_count message, chunkMessage_size message,
    chunkMessage_flatten message⟩

/-- **C3.** Code classification shape: for every string `s`, both
classifiers return `connectionCode`, and `validateConnectionCode`
accepts, exactly when `s` has length 6 and every character matches
`[A-Z0-9]` (with length 6 the regex `^[A-Z0-9]+$` reduces to this). -/
theorem code_classification (s : Str) :
    (getDataType s = .connectionCode
      ↔ s.length = 6 ∧ ∀ c ∈ s, isUpperAlnum c = true) ∧
    (validateConnectionCode s = true
      ↔ s.length = 6 ∧ ∀ c ∈ s, isUpperAlnum c = true) ∧
    (getDataTypeUtils s = .connectionCode
      ↔ s.length = 6 ∧ ∀ c ∈ s, isUpperAlnum c = true) :=
  ⟨getDataType_code_iff s, validateConnectionCode_iff s,
    getDataTypeUtils_code_iff s⟩

/-- **C4 counterexample.** The claim asserts the classifier returns
Credential only with at least 2 dots, citing both classifier copies; but
the `bleUtils.ts` copy classifies `"eyJx"` (zero dots, not Code, not
Identity) as a Credential. -/
theorem credential_dotcount_counterexample :
    getDataTypeUtils (s2l "eyJx") = .jwtToken ∧
    countDots (s2l "eyJx") = 0 ∧
    getDataTypeUtils (s2l "eyJx") ≠ .connectionCode ∧
    getDataTypeUtils (s2l "eyJx") ≠ .serialNumber := by decide

/-- **C4 (amended).** For strings classifying as neither Code nor
Identity: the `bleManager.ts` classifier returns Credential iff the
string starts with `eyJ` and contains at least 2 dots, else Unknown; the
`bleUtils.ts` classifier returns Credential iff the string starts with
`eyJ` (no dot-count requirement), else Unknown. -/
theorem credential_classification_amended (s : Str)
    (hc : getDataType s ≠ .connectionCode)
    (hs : getDataType s ≠ .serialNumber) :
    (getDataType s = .jwtToken
      ↔ (s2l "eyJ").isPrefixOf s = true ∧ 2 ≤ countDots s) ∧
    (getDataType s = .unknown
      ↔ ¬ ((s2l "eyJ").isPrefixOf s = true ∧ 2 ≤ countDots s)) ∧
    (getDataTypeUtils s = .jwtToken ↔ (s2l "eyJ").isPrefixOf s = true) ∧
    (getDataTypeUtils s = .unknown ↔ (s2l "eyJ").isPrefixOf s = false) := by
  have h1 : (decide (s.length = 6) && regexUpperAlnumPlus s) = false := by
    by_contra h
    rw [Bool.not_eq_false] at h
    apply hc
    unfold getDataType
    rw [if_pos h]
  have h2 : ((s2l "TAB-").isPrefixOf s || (s2l "IOT-").isPrefixOf s
      || (s2l "TABLET-").isPrefixOf s) = false := by
    by_contra h
    rw [Bool.not_eq_false] at h
    apply hs
    unfold getDataType
    rw [if_neg (by simp [h1]), if_pos h]
  have hgdt : getDataType s
      = if ((s2l "eyJ").isPrefixOf s && decide (countDots s ≥ 2))
        then DataType.jwtToken else DataType.unknown := by
    unfold getDataType
    rw [if_neg (by simp [h1]), if_neg (by simp [h2])]
  have hutl : getDataTypeUtils s
      = if (s2l "eyJ").isPrefixOf s
        then DataType.jwtToken else DataType.unknown := by
    unfold getDataTypeUtils
    rw [if_neg (by simp [h1]), if_neg (by simp [h2])]
  rw [hgdt, hutl]
  by_cases h3 : (s2l "eyJ").isPrefixOf s = true
  · by_cases h4 : 2 ≤ countDots s
    · rw [if_pos (by simp [h3, h4]), if_pos (by simp [h3])]
      refine ⟨by simp [h3, h4], by simp [h3, h4], by simp [h3], by simp [h3]⟩
    · rw [if_neg (by simp [h4]), if_pos (by simp [h3])]
      refine ⟨by simp [h4], by simp [h4], by simp [h3], by simp [h3]⟩
  · have hb : (s2l "eyJ").isPrefixOf s = false := by
      rw [Bool.eq_false_iff]
      exact h3
    rw [if_neg (by simp [hb]), if_neg (by simp [hb])]
    refine ⟨by simp [hb], by simp [hb], by simp [hb], by simp [hb]⟩

theorem range_map_shift (n start : Nat) :
    (List.range (n + 1)).map (start + ·)
      = start :: (List.range n).map ((start + 1) + ·) := by
  rw [List.range_succ_eq_map, List.map_cons, List.map_map]
  refine congrArg₂ List.cons (by simp) ?_
  refine List.map_congr_left fun a _ => ?_
  simp only [Function.comp_apply]
  omega

theorem writeChunksLoop_fail (oracle : Nat → Option String) :
    ∀ (chunks : List Str) (start k : Nat) (e : String),
      k < chunks.length →
      (∀ i, i < k → oracle (start + i) = none) →
      oracle (start + k) = some e →
      writeChunksLoop oracle start chunks
        = ((List.range (k + 1)).map (start + ·), some e) := by
  intro chunks
  induction chunks with
  | nil =>
    intro start k e hk
    simp at hk
  | cons c rest ih =>
    intro start k e hk hbefore hfail
    cases k with
    | zero =>
      rw [Nat.add_zero] at hfail
      rw [writeChunksLoop, hfail]
      simp [List.range_succ]
    | succ k' =>
      have h0 : oracle start = none := by
        have := hbefore 0 (Nat.succ_pos k')
        simpa using this
      have hrec := ih (start + 1) k' e (by simpa using hk)
        (fun i hi => by
          have := hbefore (i + 1) (Nat.succ_lt_succ hi)
          rw [show start + (i + 1) = start + 1 + i by omega] at this
          exact this)
        (by
          rw [show start + 1 + k' = start + (k' + 1) by omega]
          exact hfail)
      rw [writeChunksLoop, h0]
      simp only [hrec]
      rw [range_map_shift (k' + 1) start]

/-- A string with the generic error findings as a strict extension of the
given head cannot equal a string the head is not a prefix of. -/
theorem strPre_ne {g t : String} (h : g.data.isPrefixOf t.data = false) :
    ∀ m : String, g ++ m ≠ t := by
  intro m heq
  have hd : g.data ++ m.data = t.data := by
    rw [← String.data_append, heq]
  have hp : g.data <+: t.data := hd ▸ List.prefix_append g.data m.data
  rw [← List.isPrefixOf_iff_prefix] at hp
  simp [hp] at h

/-- **C6.** Abort on fragment failure: when the write of fragment `k`
fails during the chunked credential transfer, fragments `0..k` are the
only ones attempted (none after `k`), the step ends with the
completed/terminal flag set and the completion callback never invoked —
the `Errored` outcome — and the error callback is invoked exactly once,
with a message that distinguishes timed-out, cancelled and other
failures (the three message forms are pairwise distinct). -/
theorem abort_on_fragment_failure (data jwtToken : Str)
    (oracle : Nat → Option String) (k : Nat) (e : String)
    (hk : k < (chunkMessage (startMark ++ jwtToken ++ endMark)).length)
    (hbefore : ∀ i, i < k → oracle i = none)
    (hfail : oracle k = some e) :
    (sendJwtPhase data jwtToken oracle).attempted = List.range (k + 1) ∧
    (sendJwtPhase data jwtToken oracle).isCompleted = true ∧
    (sendJwtPhase data jwtToken oracle).events.filter isErrorEv
      = [IEvent.errorCb (errorMessageFor e)] ∧
    (sendJwtPhase data jwtToken oracle).events.filter isCompleteIEv = [] ∧
    (includesStr e "timed out" = true →
      errorMessageFor e = "JWT 토큰 전송 타임아웃 - 재시도해주세요") ∧
    (includesStr e "timed out" = false → includesStr e "cancelled" = true →
      errorMessageFor e = "JWT 토큰 전송 취소됨") ∧
    (includesStr e "timed out" = false → includesStr e "cancelled" = false →
      errorMessageFor e = "JWT 토큰 처리 실패: " ++ e) ∧
    ("JWT 토큰 전송 타임아웃 - 재시도해주세요" : String)
      ≠ "JWT 토큰 전송 취소됨" ∧
    (∀ m : String,
      ("JWT 토큰 처리 실패: " ++ m) ≠ "JWT 토큰 전송 타임아웃 - 재시도해주세요" ∧
      ("JWT 토큰 처리 실패: " ++ m) ≠ "JWT 토큰 전송 취소됨") := by
  have hloop := writeChunksLoop_fail oracle
    (chunkMessage (startMark ++ jwtToken ++ endMark)) 0 k e hk
    (fun i hi => by simpa using hbefore i hi) (by simpa using hfail)
  have hzero : (List.range (k + 1)).map (0 + ·) = List.range (k + 1) := by
    rw [List.map_congr_left (g := id) fun a _ => by simp]
    exact List.map_id _
  have hwrite : writeDataInChunks (startMark ++ jwtToken ++ endMark) oracle
      = (List.range (k + 1), some e) := by
    rw [writeDataInChunks, hloop, hzero]
  have hphase : sendJwtPhase data jwtToken oracle
      = ⟨true, List.range (k + 1),
         [.status "시리얼 번호 수신 - JWT 토큰 생성 중...",
          .status "JWT 토큰 전송 중...",
          .errorCb (errorMessageFor e)]⟩ := by
    simp only [sendJwtPhase, hwrite]
  refine ⟨?_, ?_, ?_, ?_, ?_, ?_, ?_, by decide, ?_⟩
  · rw [hphase]
  · rw [hphase]
  · rw [hphase]
    simp [List.filter, isErrorEv]
  · rw [hphase]
    simp [List.filter, isCompleteIEv]
  · intro ht
    rw [errorMessageFor, if_pos ht]
  · intro ht hc
    rw [errorMessageFor, if_neg (by simp [ht]), if_pos hc]
  · intro ht hc
    rw [errorMessageFor, if_neg (by simp [ht]), if_neg (by simp [hc])]
  · intro m
    exact ⟨strPre_ne (by decide) m, strPre_ne (by decide) m⟩

/-- **C6 witness.** Failure at fragment 1 of the 2-fragment transfer of
the wrapped token `STARTeyJaENDxy...`; the error message contains
`timed out`. -/
theorem abort_on_fragment_failure_witness :
    (1 < (chunkMessage (startMark ++ s2l "eyJtokentokentokentoken"
        ++ endMark)).length) ∧
    (sendJwtPhase (s2l "TAB-000123") (s2l "eyJtokentokentokentoken")
        (fun i => if i = 1 then some "Operation timed out" else none)).attempted
      = List.range 2 ∧
    (sendJwtPhase (s2l "TAB-000123") (s2l "eyJtokentokentokentoken")
        (fun i => if i = 1 then some "Operation timed out" else none)).events.filter
        isErrorEv
      = [IEvent.errorCb (errorMessageFor "Operation timed out")] ∧
    errorMessageFor "Operation timed out"
      = "JWT 토큰 전송 타임아웃 - 재시도해주세요" := by
  have h := abort_on_fragment_failure (s2l "TAB-000123")
    (s2l "eyJtokentokentokentoken")
    (fun i => if i = 1 then some "Operation timed out" else none) 1
    "Operation timed out" (by rw [chunkMessage_count]; decide)
    (fun i hi => by interval_cases i <;> decide) (by decide)
  exact ⟨by rw [chunkMessage_count]; decide, h.1, h.2.2.1,
    h.2.2.2.2.1 (by decide)⟩

theorem includes_append_end (x : Str) :
    includesJS (x ++ endMark) endMark = true := by
  apply includesJS_of_isPre_drop (i := x.length)
  rw [List.drop_left]
  simp [ List.isPrefixOf_iff_prefix]

/-- Delivering only empty fragments to a session whose accumulator does
not contain the end marker never invokes completion. -/
theorem runHandler_empties (sn : Str) (hook : Bool) :
    ∀ (fs : List Str) (st : RState), (∀ f ∈ fs, f = []) →
      includesJS (st.chunks.getD []) endMark = false →
      ((runHandler sn hook st fs).2.filter isCompleteEv) = [] := by
  intro fs
  induction fs with
  | nil =>
    intro st _ _
    simp [runHandler]
  | cons f rest ih =>
    intro st hall hnoend
    have hf : f = [] := hall f (List.mem_cons_self f rest)
    subst hf
    have hnoend' : includesJS (st.chunks.getD [] ++ ([] : Str)) endMark
        = false := by
      rw [List.append_nil]
      exact hnoend
    have hstep := handleTop_of_switch_none
      ((@handleSwitch_eq_accumulate sn hook st [] (.ok ()) (.ok ())
        (Or.inr (by decide))).trans
        (handleAccumulate_noEnd hnoend'))
    simp only [runHandler]
    rw [hstep]
    rw [List.filter_append, List.filter_append]
    have hih := ih ⟨some (st.chunks.getD [] ++ []), st.code⟩
      (fun g hg => hall g (List.mem_cons_of_mem _ hg))
      (by simpa using hnoend')
    rw [hih]
    have h1 : ((if includesJS (st.chunks.getD [] ++ ([] : Str)) startMark
        then [REvent.statusJwtStart] else []) : List REvent).filter
        isCompleteEv = [] := by
      split <;> simp [isCompleteEv]
    rw [h1]
    simp [isCompleteEv]

/-- The run-level induction for the sentinel round trip: starting from a
session whose accumulator holds a premature-`END`-free prefix, delivering
the rest of the frame in fragments that classify as neither Code nor
Credential invokes completion exactly once, with exactly the payload. -/
theorem sentinel_run_aux (sn : Str) (hook : Bool) (p : Str) (hp : p ≠ [])
    (hnoend : includesJS (startMark ++ p) endMark = false) :
    ∀ (fs : List Str) (st : RState),
      (∀ f ∈ fs, getDataType f ≠ .connectionCode
        ∧ getDataType f ≠ .jwtToken) →
      st.chunks.getD [] ++ fs.flatten = startMark ++ p ++ endMark →
      includesJS (st.chunks.getD []) endMark = false →
      ((runHandler sn hook st fs).2.filter isCompleteEv)
        = [REvent.complete (st.code.getD []) sn p] := by
  intro fs
  induction fs with
  | nil =>
    intro st _ hbuf hnoacc
    exfalso
    rw [List.flatten_nil, List.append_nil] at hbuf
    rw [hbuf] at hnoacc
    have := includes_append_end (startMark ++ p)
    rw [this] at hnoacc
    simp at hnoacc
  | cons f rest ih =>
    intro st hclass hbuf hnoacc
    have hfty := hclass f (List.mem_cons_self f rest)
    have hclass' : ∀ g ∈ rest,
        getDataType g ≠ .connectionCode ∧ getDataType g ≠ .jwtToken :=
      fun g hg => hclass g (List.mem_cons_of_mem f hg)
    have hser : getDataType f = .serialNumber ∨ getDataType f = .unknown := by
      cases hgt : getDataType f <;> simp_all
    have hbuf' : (st.chunks.getD [] ++ f) ++ rest.flatten
        = startMark ++ p ++ endMark := by
      rw [List.flatten_cons, ← List.append_assoc] at hbuf
      exact hbuf
    by_cases hend : includesJS (st.chunks.getD [] ++ f) endMark = true
    · have hb : rest.flatten = [] :=
        endMark_unique_occurrence hbuf' hnoend hend
      have haC : st.chunks.getD [] ++ f = startMark ++ p ++ endMark := by
        rw [hb, List.append_nil] at hbuf'
        exact hbuf'
      have hstep := handleTop_of_switch_none
        ((@handleSwitch_eq_accumulate sn hook st f (.ok ()) (.ok ())
          hser).trans
          (handleAccumulate_complete (p := p) haC hp hnoend))
      simp only [runHandler]
      rw [hstep, List.filter_append]
      have hrestall : ∀ g ∈ rest, g = ([] : Str) :=
        List.flatten_eq_nil_iff.mp hb
      have hrest := runHandler_empties sn hook rest ⟨none, none⟩ hrestall
        (by decide)
      rw [hrest]
      simp [isCompleteEv]
    · have hendF : includesJS (st.chunks.getD [] ++ f) endMark = false := by
        simpa using hend
      have hstep := handleTop_of_switch_none
        ((@handleSwitch_eq_accumulate sn hook st f (.ok ()) (.ok ())
          hser).trans
          (handleAccumulate_noEnd hendF))
      simp only [runHandler]
      rw [hstep, List.filter_append]
      have hih := ih ⟨some (st.chunks.getD [] ++ f), st.code⟩ hclass'
        (by simpa using hbuf') (by simpa using hendF)
      rw [hih]
      have h1 : ((if includesJS (st.chunks.getD [] ++ f) startMark
          then [REvent.statusJwtStart] else []) : List REvent).filter
          isCompleteEv = [] := by
        split <;> simp [isCompleteEv]
      rw [List.filter_append, h1]
      simp [isCompleteEv]

/-- **C1 counterexample.** The claim quantifies over every payload `p`
whose bracketed form `START<p>END` is contained in the in-order
concatenation; for `p = "aENDb"` the single fragment
`"STARTaENDbEND"` (whose content is exactly `START ++ p ++ END`) makes
the responder extract up to the *first* `END`, invoking completion with
`"a"`, not `p`. -/
theorem sentinel_roundtrip_counterexample :
    (s2l "STARTaENDbEND" = startMark ++ s2l "aENDb" ++ endMark) ∧
    ((runHandler (s2l "TAB-000123") false ⟨none, none⟩
        [s2l "STARTaENDbEND"]).2.filter isCompleteEv
      = [REvent.complete [] (s2l "TAB-000123") (s2l "a")]) ∧
    s2l "a" ≠ s2l "aENDb" := by decide

/-- **C1 (amended).** Sentinel-scheme reassembly round trip, restricted
to the inputs the accumulator logic actually handles: for every nonempty
payload `p` such that `END` does not occur in `START ++ p`, and every
in-order fragment sequence whose members classify as neither Code nor
Credential and whose concatenation is exactly `START ++ p ++ END`, the
responder (from a fresh accumulator) invokes the completion callback
exactly once, with `jwtToken` exactly `p` — including splits at the
markers or mid-marker. -/
theorem sentinel_roundtrip_amended (sn : Str) (hook : Bool)
    (code0 : Option Str) (p : Str) (fs : List Str)
    (hp : p ≠ [])
    (hnoend : includesJS (startMark ++ p) endMark = false)
    (hclass : ∀ f ∈ fs, getDataType f ≠ .connectionCode
      ∧ getDataType f ≠ .jwtToken)
    (hjoin : fs.flatten = startMark ++ p ++ endMark) :
    ((runHandler sn hook ⟨none, code0⟩ fs).2.filter isCompleteEv)
      = [REvent.complete (code0.getD []) sn p] :=
  sentinel_run_aux sn hook p hp hnoend fs ⟨none, code0⟩ hclass
    (by simpa using hjoin) rfl

/-- **C1 witness.** The amended claim at `p = "abcd"` split as
`"STA" | "RTab" | "cdE" | "ND"` — cutting mid-`START`, mid-payload and
mid-`END`. -/
theorem sentinel_roundtrip_witness :
    (s2l "abcd" ≠ ([] : Str)) ∧
    includesJS (startMark ++ s2l "abcd") endMark = false ∧
    ([s2l "STA", s2l "RTab", s2l "cdE", s2l "ND"].flatten
      = startMark ++ s2l "abcd" ++ endMark) ∧
    ((runHandler (s2l "TAB-000123") false ⟨none, some (s2l "AB12CD")⟩
        [s2l "STA", s2l "RTab", s2l "cdE", s2l "ND"]).2.filter isCompleteEv
      = [REvent.complete ((some (s2l "AB12CD")).getD [])
          (s2l "TAB-000123") (s2l "abcd")]) :=
  ⟨by decide, by decide, by decide,
    sentinel_roundtrip_amended (s2l "TAB-000123") false
      (some (s2l "AB12CD")) (s2l "abcd")
      [s2l "STA", s2l "RTab", s2l "cdE", s2l "ND"]
      (by decide) (by decide) (by decide) (by decide)⟩

/-- **C5 counterexample.** The claim asserts the responder's completion
callback fires at most once per session even when duplicate
Credential-classified payloads arrive after completion; delivering
`"eyJa.b.c"` twice invokes it twice (the second time with an empty
stored code, the session having been cleared). -/
theorem completion_idempotence_counterexample :
    ((runHandler (s2l "TAB-000123") false ⟨none, some (s2l "AB12CD")⟩
        [s2l "eyJa.b.c", s2l "eyJa.b.c"]).2.filter isCompleteEv).length
      = 2 := by decide

/-- **C5 (amended).** A single `handleIoTRegistrationData` call invokes
the completion callback at most once, and it clears the session store
after completion; but there is no cross-call duplicate-delivery guard: a
duplicate Credential-classified payload delivered after completion
invokes the completion callback again, the second time with an empty
stored connection code. -/
theorem completion_idempotence_amended :
    (∀ (sn : Str) (hook : Bool) (st : RState) (data : Str)
        (sendRes completeRes : Except String Unit),
      (((handleIoTRegistrationData sn hook st data sendRes
          completeRes).2).filter isCompleteEv).length ≤ 1) ∧
    ((runHandler (s2l "TAB-000123") false ⟨none, some (s2l "AB12CD")⟩
        [s2l "eyJa.b.c", s2l "eyJa.b.c"]).2.filter isCompleteEv
      = [REvent.complete (s2l "AB12CD") (s2l "TAB-000123") (s2l "eyJa.b.c"),
         REvent.complete [] (s2l "TAB-000123") (s2l "eyJa.b.c")]) := by
  constructor
  · intro sn hook st data sendRes completeRes
    rw [handle_eq]
    have hsw := handleSwitch_complete_count sn hook st data sendRes completeRes
    rcases h : (handleSwitch sn hook st data sendRes completeRes).2.2.isSome
    · simpa [h] using hsw
    · rw [List.filter_append]
      simpa [h, isCompleteEv] using hsw
  · decide

/-- **C7 counterexample.** The claim asserts the invalid payload `"abc"`
leaves all session state for the peer untouched; in fact it classifies
as `unknown` and is appended to the peer's fragment accumulator,
creating an entry where none existed. -/
theorem invalid_code_inert_counterexample :
    getDataType (s2l "abc") = .unknown ∧
    (handleIoTRegistrationData (s2l "TAB-000123") false ⟨none, none⟩
        (s2l "abc") (.ok ()) (.ok ())).1.chunks = some (s2l "abc") ∧
    (⟨none, none⟩ : RState).chunks ≠ some (s2l "abc") := by decide

/-- **C7 (amended).** On receiving `"abc"` (with the peer's accumulator
not already containing the end marker) the responder leaves the stored
connection code unchanged and neither sends the serial number nor
completes — but it does append `"abc"` to the peer's fragment
accumulator. -/
theorem invalid_code_inert_amended (sn : Str) (hook : Bool) (st : RState)
    (sendRes completeRes : Except String Unit)
    (hnoend : includesJS (st.chunks.getD [] ++ s2l "abc") endMark = false) :
    ∃ evs,
      handleIoTRegistrationData sn hook st (s2l "abc") sendRes completeRes
        = (⟨some (st.chunks.getD [] ++ s2l "abc"), st.code⟩, evs) ∧
      ∀ e ∈ evs, isNotifyEv e = false ∧ isCompleteEv e = false := by
  have hsw : handleSwitch sn hook st (s2l "abc") sendRes completeRes
      = handleAccumulate sn st (s2l "abc") completeRes :=
    handleSwitch_eq_accumulate (Or.inr (by decide))
  have hacc := @handleAccumulate_noEnd sn st (s2l "abc") completeRes hnoend
  have htop := handleTop_of_switch_none (hsw.trans hacc)
  refine ⟨_, htop, ?_⟩
  intro e he
  rcases List.mem_append.mp he with he | he
  · split at he
    · rw [List.mem_singleton.mp he]
      exact ⟨rfl, rfl⟩
    · simp at he
  · rw [List.mem_singleton.mp he]
    exact ⟨rfl, rfl⟩

/-- **C7 witness.** The amended claim at the empty session. -/
theorem invalid_code_inert_witness :
    includesJS ((RState.mk none none).chunks.getD [] ++ s2l "abc")
        endMark = false ∧
    ∃ evs,
      handleIoTRegistrationData (s2l "TAB-000123") false ⟨none, none⟩
          (s2l "abc") (.ok ()) (.ok ())
        = (⟨some ((RState.mk none none).chunks.getD [] ++ s2l "abc"),
            (RState.mk none none).code⟩, evs) ∧
      ∀ e ∈ evs, isNotifyEv e = false ∧ isCompleteEv e = false :=
  ⟨by decide,
    invalid_code_inert_amended (s2l "TAB-000123") false ⟨none, none⟩
      (.ok ()) (.ok ()) (by decide)⟩

/-- **C8 counterexample.** The claim asserts the stored one-time code
survives completion; in fact, after the code `"AB12CD"` is stored and
the frame `"STARTxEND"` completes, the code entry is deleted together
with the accumulator (the completion callback still receives the code
read before deletion). -/
theorem code_survives_completion_counterexample :
    (runHandler (s2l "TAB-000123") false ⟨none, none⟩
        [s2l "AB12CD", s2l "STARTxEND"]).1.code = none ∧
    REvent.complete (s2l "AB12CD") (s2l "TAB-000123") (s2l "x")
      ∈ (runHandler (s2l "TAB-000123") false ⟨none, none⟩
          [s2l "AB12CD", s2l "STARTxEND"]).2 := by decide

/-- **C8 (amended).** When a handler call (with the completion callback
returning normally) invokes completion, the emitted result carries the
stored code (empty if absent) and the configured serial number, and the
call clears **both** the peer's fragment accumulator and its stored
one-time code. -/
theorem completion_clears_session_amended (sn : Str) (hook : Bool)
    (st : RState) (data : Str) (sendRes : Except String Unit) (c s j : Str)
    (h : REvent.complete c s j
        ∈ (handleIoTRegistrationData sn hook st data sendRes (.ok ())).2) :
    (handleIoTRegistrationData sn hook st data sendRes (.ok ())).1
        = ⟨none, none⟩ ∧
    c = st.code.getD [] ∧ s = sn := by
  rw [handle_eq] at h ⊢
  have hmem : REvent.complete c s j
      ∈ (handleSwitch sn hook st data sendRes (.ok ())).2.1 := by
    rcases List.mem_append.mp h with h' | h'
    · exact h'
    · split at h' <;> simp_all
  obtain ⟨h1, _, h3, h4⟩ := handleSwitch_complete_ok sn hook st data sendRes c s j hmem
  exact ⟨by rw [h1], h3, h4⟩

/-- **C8 witness.** The amended claim at the stored code `"AB12CD"` and
the single-fragment frame `"STARTxEND"`. -/
theorem completion_clears_session_witness :
    REvent.complete (s2l "AB12CD") (s2l "TAB-000123") (s2l "x")
      ∈ (handleIoTRegistrationData (s2l "TAB-000123") false
          ⟨none, some (s2l "AB12CD")⟩ (s2l "STARTxEND")
          (.ok ()) (.ok ())).2 ∧
    ((handleIoTRegistrationData (s2l "TAB-000123") false
          ⟨none, some (s2l "AB12CD")⟩ (s2l "STARTxEND")
          (.ok ()) (.ok ())).1 = ⟨none, none⟩ ∧
      s2l "AB12CD" = (RState.mk none (some (s2l "AB12CD"))).code.getD []
      ∧ s2l "TAB-000123" = s2l "TAB-000123") :=
  ⟨by decide,
    completion_clears_session_amended (s2l "TAB-000123") false
      ⟨none, some (s2l "AB12CD")⟩ (s2l "STARTxEND") (.ok ())
      (s2l "AB12CD") (s2l "TAB-000123") (s2l "x") (by decide)⟩

/-- **C9.** Write-event handler totality: for every peer state, payload
and callback outcome, the handler promise resolves (the `Except` error
channel is never used), and whenever the switch body raised an
exception, the handler reports it through the status-update callback as
the processing-failure status instead of propagating it. -/
theorem handler_totality (sn : Str) (hook : Bool) (st : RState)
    (data : Str) (sendRes completeRes : Except String Unit) :
    (∃ r, handleIoTRegistrationDataE sn hook st data sendRes completeRes
        = Except.ok r) ∧
    ((handleSwitch sn hook st data sendRes completeRes).2.2.isSome = true →
      REvent.statusProcessingFailed
        ∈ (handleIoTRegistrationData sn hook st data sendRes
            completeRes).2) := by
  constructor
  · unfold handleIoTRegistrationDataE
    rcases handleSwitch sn hook st data sendRes completeRes with ⟨st', evs, exc⟩
    cases exc
    · exact ⟨_, rfl⟩
    · exact ⟨_, rfl⟩
  · intro hexc
    rw [handle_eq]
    refine List.mem_append.mpr (Or.inr ?_)
    rw [if_pos hexc]
    exact List.mem_singleton.mpr rfl

/-- **C9 witness.** A throwing completion callback on a direct
Credential payload is caught and reported. -/
theorem handler_totality_witness :
    (∃ r, handleIoTRegistrationDataE (s2l "TAB-000123") false
        ⟨none, some (s2l "AB12CD")⟩ (s2l "eyJa.b.c") (.ok ())
        (.error "boom") = Except.ok r) ∧
    REvent.statusProcessingFailed
      ∈ (handleIoTRegistrationData (s2l "TAB-000123") false
          ⟨none, some (s2l "AB12CD")⟩ (s2l "eyJa.b.c") (.ok ())
          (.error "boom")).2 :=
  ⟨(handler_totality (s2l "TAB-000123") false ⟨none, some (s2l "AB12CD")⟩
      (s2l "eyJa.b.c") (.ok ()) (.error "boom")).1,
   (handler_totality (s2l "TAB-000123") false ⟨none, some (s2l "AB12CD")⟩
      (s2l "eyJa.b.c") (.ok ()) (.error "boom")).2 (by decide)⟩

/-- **C4 witness.** The amended claim instantiated at `"eyJa.b.c"`. -/
theorem credential_classification_witness :
    (getDataType (s2l "eyJa.b.c") ≠ .connectionCode) ∧
    (getDataType (s2l "eyJa.b.c") ≠ .serialNumber) ∧
    (getDataType (s2l "eyJa.b.c") = .jwtToken
      ↔ (s2l "eyJ").isPrefixOf (s2l "eyJa.b.c") = true
        ∧ 2 ≤ countDots (s2l "eyJa.b.c")) :=
  ⟨by decide, by decide,
    (credential_classification_amended (s2l "eyJa.b.c")
      (by decide) (by decide)).1⟩

theorem countDots_eq_zero {l : Str} (h : ∀ c ∈ l, c ≠ '.') :
    countDots l = 0 := by
  rw [countDots, List.countP_eq_zero]
  intro a ha
  simpa using h a ha

/-- Structural facts about any `H.P.S` token with dot-free non-empty
parts, a first part starting with `eyJ` longer than 6 characters starting
with `e`. -/
theorem token_shape_props (H P S : Str)
    (hHnd : ∀ c ∈ H, c ≠ '.') (hPnd : ∀ c ∈ P, c ≠ '.')
    (hSnd : ∀ c ∈ S, c ≠ '.')
    (hHpre : (s2l "eyJ").isPrefixOf H = true)
    (hHlen : 6 < H.length)
    (hHne : H ≠ []) (hPne : P ≠ []) (hSne : S ≠ [])
    (hhead : ∃ r, H = 'e' :: r) :
    isValidJwtToken (H ++ '.' :: (P ++ '.' :: S)) = true ∧
    (splitOnDot (H ++ '.' :: (P ++ '.' :: S))).length = 3 ∧
    (∀ part ∈ splitOnDot (H ++ '.' :: (P ++ '.' :: S)), part ≠ []) ∧
    (s2l "eyJ").isPrefixOf
      ((splitOnDot (H ++ '.' :: (P ++ '.' :: S))).headD []) = true ∧
    (s2l "eyJ").isPrefixOf (H ++ '.' :: (P ++ '.' :: S)) = true ∧
    getDataType (H ++ '.' :: (P ++ '.' :: S)) = .jwtToken ∧
    getDataTypeUtils (H ++ '.' :: (P ++ '.' :: S)) = .jwtToken := by
  obtain ⟨r, hHr⟩ := hhead
  have hsplit := splitOnDot_three hHnd hPnd hSnd
  have ht_cons : H ++ '.' :: (P ++ '.' :: S)
      = 'e' :: (r ++ '.' :: (P ++ '.' :: S)) := by
    rw [hHr, List.cons_append]
  have htne : H ++ '.' :: (P ++ '.' :: S) ≠ [] := by
    rw [ht_cons]
    simp
  have heyJt : (s2l "eyJ").isPrefixOf (H ++ '.' :: (P ++ '.' :: S)) = true := by
    apply List.isPrefixOf_iff_prefix.mpr
    exact ( List.isPrefixOf_iff_prefix.mp hHpre).trans ( List.prefix_append _ _)
  have h6 : (H ++ '.' :: (P ++ '.' :: S)).length ≠ 6 := by
    simp only [List.length_append, List.length_cons]
    omega
  have hTAB : (s2l "TAB-").isPrefixOf (H ++ '.' :: (P ++ '.' :: S)) = false := by
    rw [ht_cons, show s2l "TAB-" = 'T' :: s2l "AB-" from rfl]
    exact isPre_false_of_head _ _ (by decide)
  have hIOT : (s2l "IOT-").isPrefixOf (H ++ '.' :: (P ++ '.' :: S)) = false := by
    rw [ht_cons, show s2l "IOT-" = 'I' :: s2l "OT-" from rfl]
    exact isPre_false_of_head _ _ (by decide)
  have hTABLET : (s2l "TABLET-").isPrefixOf (H ++ '.' :: (P ++ '.' :: S))
      = false := by
    rw [ht_cons, show s2l "TABLET-" = 'T' :: s2l "ABLET-" from rfl]
    exact isPre_false_of_head _ _ (by decide)
  have hHz := countDots_eq_zero hHnd
  have hPz := countDots_eq_zero hPnd
  have hSz := countDots_eq_zero hSnd
  have hdots : countDots (H ++ '.' :: (P ++ '.' :: S)) = 2 := by
    simp only [countDots] at hHz hPz hSz ⊢
    rw [List.countP_append, List.countP_cons, List.countP_append,
      List.countP_cons, hHz, hPz, hSz]
    simp
  obtain ⟨hcls1, hcls2⟩ := getDataType_jwt_of _ h6 hTAB hIOT hTABLET heyJt
    (by omega)
  refine ⟨?_, ?_, ?_, ?_, heyJt, hcls1, hcls2⟩
  · rw [isValidJwtToken, if_neg htne, hsplit]
    rfl
  · rw [hsplit]
    rfl
  · rw [hsplit]
    intro part hpart
    rcases List.mem_cons.mp hpart with rfl | hpart
    · exact hHne
    rcases List.mem_cons.mp hpart with rfl | hpart
    · exact hPne
    rcases List.mem_cons.mp hpart with rfl | hpart
    · exact hSne
    · simp at hpart
  · rw [hsplit]
    exact hHpre

/-- **C10.** Generated credentials are always recognized: for every
serial-number string whose characters `btoa` accepts (code points below
256) and every clock reading, `generateJwtToken` succeeds and produces a
token of exactly three non-empty dot-separated parts whose first part
starts with `eyJ`; `isValidJwtToken` accepts it and both classifiers
classify it as `jwtToken` (so never as `connectionCode`, `serialNumber`
or `unknown`). -/
theorem generated_credential_recognized (sn : Str) (now : Nat)
    (hsn : ∀ c ∈ sn, c.toNat < 256) :
    ∃ t, generateJwtToken sn now = some t ∧
      isValidJwtToken t = true ∧
      (splitOnDot t).length = 3 ∧
      (∀ part ∈ splitOnDot t, part ≠ []) ∧
      (s2l "eyJ").isPrefixOf ((splitOnDot t).headD []) = true ∧
      (s2l "eyJ").isPrefixOf t = true ∧
      getDataType t = .jwtToken ∧
      getDataTypeUtils t = .jwtToken := by
  have hH : btoa headerJson
      = some (s2l "eyJhbGciOiJIUzI1NiIsInR5cCI6IkpXVCJ9") := by decide
  have hpb := payloadJson_bytes hsn (now / 1000) (now / 1000 + 60 * 60 * 24)
  obtain ⟨bs, hbs, hlenbs⟩ := bytesOf_ok _ hpb
  have hP : btoa (payloadJson sn (now / 1000) (now / 1000 + 60 * 60 * 24))
      = some (b64Encode bs) := by
    rw [btoa, hbs]
    rfl
  have hbsne : bs ≠ [] := by
    intro h
    rw [h] at hlenbs
    have h12 : (s2l "\x7b\"deviceId\":").length = 12 := by decide
    have hpos : 0 < (payloadJson sn (now / 1000)
        (now / 1000 + 60 * 60 * 24)).length := by
      unfold payloadJson
      simp only [List.length_append, h12]
      omega
    rw [← hlenbs] at hpos
    simp at hpos
  have hprops := token_shape_props
    (s2l "eyJhbGciOiJIUzI1NiIsInR5cCI6IkpXVCJ9") (b64Encode bs)
    (s2l "mock-signature-" ++ natToStr now)
    (by decide)
    (fun c hc => (b64Encode_good bs.length bs le_rfl c hc).2)
    (by
      intro c hc
      rcases List.mem_append.mp hc with hc | hc
      · have hmock : ∀ x ∈ s2l "mock-signature-", x ≠ '.' := by decide
        exact hmock c hc
      · exact (natToStr_good now c hc).2)
    (by decide) (by decide) (by decide)
    (b64Encode_ne_nil hbsne)
    (by
      intro h
      have := congrArg List.length h
      have h15 : (s2l "mock-signature-").length = 15 := by decide
      simp only [List.length_append, h15, List.length_nil] at this
      omega)
    ⟨s2l "yJhbGciOiJIUzI1NiIsInR5cCI6IkpXVCJ9", rfl⟩
  refine ⟨s2l "eyJhbGciOiJIUzI1NiIsInR5cCI6IkpXVCJ9"
    ++ '.' :: (b64Encode bs
      ++ '.' :: (s2l "mock-signature-" ++ natToStr now)), ?_, hprops⟩
  unfold generateJwtToken
  rw [hH, hP]
  rfl

/-- **C10 witness.** The claim at the serial `"TAB-000123"` with clock
reading 0. -/
theorem generated_credential_recognized_witness :
    (∀ c ∈ s2l "TAB-000123", c.toNat < 256) ∧
    ∃ t, generateJwtToken (s2l "TAB-000123") 0 = some t ∧
      isValidJwtToken t = true ∧
      (splitOnDot t).length = 3 ∧
      (∀ part ∈ splitOnDot t, part ≠ []) ∧
      (s2l "eyJ").isPrefixOf ((splitOnDot t).headD []) = true ∧
      (s2l "eyJ").isPrefixOf t = true ∧
      getDataType t = .jwtToken ∧
      getDataTypeUtils t = .jwtToken :=
  ⟨by decide, generated_credential_recognized (s2l "TAB-000123") 0 (by decide)⟩

end BleTransfer